import Mathlib

/-!
Shallow embedding of the weak-arena allocator (src/src/lib.rs).

Addresses are natural numbers. The Rust global allocator (`alloc::alloc`)
is modelled as a bump of fresh addresses rounded up to `mallocAlign`,
the de-facto minimum alignment the global allocator provides for these
block layouts (the arena only ever requests blocks with alignment 1, and
the model confines type layouts to alignments dividing `mallocAlign`);
as a ghost trace, the allocator records the sizes it was asked for, in
call order.  Panics (`assert_ne!`, `Option::unwrap`, `Vec` indexing) are
modelled as `Except.error`.  `Rc<Cell<bool>>` liveness cells are modelled
as indices into a store of booleans held in `Mem`; cloning an `Rc` copies
the index.  The stored bytes of allocated values are not modelled — no
claim inspects them — but each allocation receives a ghost serial number,
used to state destructor-ordering properties.
-/

/-- Byte alignment the modelled global allocator guarantees for the
page blocks it returns. -/
def mallocAlign : Nat := 16

/-- Round `n` up to the next multiple of `a`. -/
def roundUp (n a : Nat) : Nat := (n + a - 1) / a * a

/-- `std::alloc::Layout`: a size/alignment pair. -/
structure Layout where
  size : Nat
  align : Nat
deriving DecidableEq, Repr

/-- Rust guarantees any type layout has a power-of-two, positive
alignment; the model additionally confines itself to alignments the
modelled allocator can serve, i.e. divisors of `mallocAlign`
(1, 2, 4, 8 or 16 — exactly the powers of two up to 16). -/
def Layout.valid (l : Layout) : Prop := 0 < l.align ∧ l.align ∣ mallocAlign

instance (l : Layout) : Decidable l.valid := by
  unfold Layout.valid; infer_instance

/-- `NonNull::align_offset` for a power-of-two alignment: the distance
from `addr` up to the next address that is a multiple of `align`. -/
def alignOffset (addr align : Nat) : Nat := (align - addr % align) % align

/-- State of the modelled global allocator: the next fresh address plus,
as a ghost trace, the sizes passed to `alloc::alloc` in call order. -/
structure AllocState where
  next : Nat
  calls : List Nat
deriving DecidableEq, Repr

/-- `alloc::alloc` model: hand out a fresh `mallocAlign`-aligned block
and record the requested size.  Out-of-memory is not modelled (the
source treats it as process-fatal). -/
def allocRaw (st : AllocState) (size : Nat) : Nat × AllocState :=
  let addr := roundUp st.next mallocAlign
  (addr, { next := addr + size, calls := st.calls ++ [size] })

/-- `AllocationPage` from the source: it stores the layout it was
allocated with, its start address and its end address (`end` in the
source; `end` is a reserved word in Lean). -/
structure AllocationPage where
  layout : Layout
  start : Nat
  endAddr : Nat
deriving DecidableEq, Repr

/-- `AllocationPage::new(size)`: build the size/align-1 layout, assert
that the size is non-zero (the `assert_ne!` runs before `alloc::alloc`
is invoked), then allocate the block. -/
def AllocationPage.new (size : Nat) (st : AllocState) :
    Except String (AllocationPage × AllocState) :=
  let layout : Layout := { size := size, align := 1 }
  if layout.size = 0 then
    .error "assertion failed: layout.size() != 0"
  else
    let p := allocRaw st layout.size
    .ok ({ layout := layout, start := p.1, endAddr := p.1 + size }, p.2)

/-- `AllocationPage::try_alloc_layout(cursor, layout)`: align the cursor
up, add the size, and hand back the (start, end) interval unless the end
would exceed the page's end.  Pure: no page or arena state is touched. -/
def AllocationPage.try_alloc_layout (p : AllocationPage) (cursor : Nat)
    (l : Layout) : Option (Nat × Nat) :=
  let align_offset := alignOffset cursor l.align
  let data_ptr := cursor + align_offset
  let data_end_ptr := data_ptr + l.size
  if data_end_ptr ≤ p.endAddr then some (data_ptr, data_end_ptr) else none

/-- `Cursor`: active page index and next-free-byte address. -/
structure Cursor where
  page : Nat
  offset : Nat
deriving DecidableEq, Repr

/-- `DropHandler`: the erased address of the value plus, as a ghost, the
serial number of the allocation that registered it — standing for the
distinct identity of each registered entry (its `drop` fn instance). -/
structure DropHandler where
  value : Nat
  serial : Nat
deriving DecidableEq, Repr

/-- `WeakArena`, field for field as in the source.  `alive` is the index
of the current liveness cell in `Mem.flags`. -/
structure WeakArena where
  page_size : Nat
  pages : List AllocationPage
  cursor : Cursor
  drop_handlers : List DropHandler
  alive : Nat
deriving DecidableEq, Repr

/-- The world outside the arena value: allocator state, the store of
liveness cells, a ghost trace of executed destructor entries in
execution order, and a ghost allocation serial counter. -/
structure Mem where
  alloc_state : AllocState
  flags : List Bool
  drop_trace : List DropHandler
  next_serial : Nat
deriving DecidableEq, Repr

/-- Initial world: no liveness cell exists yet and the allocator has
handed out nothing (addresses start at 1, so no block is at null). -/
def Mem.init : Mem :=
  { alloc_state := { next := 1, calls := [] }
    flags := []
    drop_trace := []
    next_serial := 0 }

/-- `WeakArena::new(page_size)`: allocate the first page, point the
cursor at its start, and create a fresh, initially-true liveness cell. -/
def WeakArena.new (page_size : Nat) (m : Mem) :
    Except String (WeakArena × Mem) :=
  match AllocationPage.new page_size m.alloc_state with
  | .error e => .error e
  | .ok (page, st) =>
    .ok ({ page_size := page_size
           pages := [page]
           cursor := { page := 0, offset := page.start }
           drop_handlers := []
           alive := m.flags.length },
         { m with alloc_state := st, flags := m.flags ++ [true] })

/-- `WeakArena::clear()`:
`self.drop_handlers.clear()` runs every registered `DropHandler` front
to back (appended here to the ghost `drop_trace`); all pages but the
last are deallocated; the current liveness cell is set to `false` and
replaced by a fresh `true` cell; the cursor is reset to `self.pages[0]`
(an `Except.error` models the index panic on an empty `Vec`, which
cannot happen in reachable states). -/
def WeakArena.clear (a : WeakArena) (m : Mem) :
    Except String (WeakArena × Mem) :=
  let pages := a.pages.drop (a.pages.length - 1)
  match pages.head? with
  | none => .error "index out of bounds"
  | some p0 =>
    .ok ({ a with
             pages := pages
             drop_handlers := []
             alive := m.flags.length
             cursor := { page := 0, offset := p0.start } },
         { m with
             drop_trace := m.drop_trace ++ a.drop_handlers
             flags := (m.flags.set a.alive false) ++ [true] })

/-- `WeakArena::alloc_in_current_page(layout)`. -/
def WeakArena.alloc_in_current_page (a : WeakArena) (l : Layout) :
    Option (Nat × WeakArena) :=
  match a.pages.get? a.cursor.page with
  | none => none
  | some page =>
    match page.try_alloc_layout a.cursor.offset l with
    | none => none
    | some (data_ptr, data_end_ptr) =>
      some (data_ptr,
        { a with cursor := { page := a.cursor.page, offset := data_end_ptr } })

/-- `WeakArena::alloc_in_new_page(layout)`: double the page-size hint,
clamp it up to the requested size, allocate a brand-new page, reserve
the layout at its start (the `unwrap` panic is an `Except.error`),
append the page and move the cursor to the reserved end. -/
def WeakArena.alloc_in_new_page (a : WeakArena) (l : Layout) (m : Mem) :
    Except String (Nat × WeakArena × Mem) :=
  let page_size := max (a.page_size * 2) l.size
  match AllocationPage.new page_size m.alloc_state with
  | .error e => .error e
  | .ok (page, st) =>
    match page.try_alloc_layout page.start l with
    | none => .error "called Option::unwrap on a None value"
    | some (data_ptr, data_end_ptr) =>
      .ok (data_ptr,
           { a with
               page_size := page_size
               pages := a.pages ++ [page]
               cursor := { page := a.pages.length, offset := data_end_ptr } },
           { m with alloc_state := st })

/-- `WeakArena::alloc_layout(layout)`. -/
def WeakArena.alloc_layout (a : WeakArena) (l : Layout) (m : Mem) :
    Except String (Nat × WeakArena × Mem) :=
  match a.alloc_in_current_page l with
  | some (data_ptr, a') => .ok (data_ptr, a', m)
  | none => a.alloc_in_new_page l m

/-- Compile-time data of `T` that `WeakArena::alloc::<T>` consumes: the
layout of `T` and `mem::needs_drop::<T>()`. -/
structure TypeInfo where
  layout : Layout
  needs_drop : Bool
deriving DecidableEq, Repr

/-- `WeakBox<T>` (the exclusive handle): the value address plus the
index of the liveness cell cloned at allocation time. -/
structure WeakBox where
  ptr : Nat
  alive : Nat
deriving DecidableEq, Repr

/-- `WeakShared<T>` (the shared handle). -/
structure WeakShared where
  ptr : Nat
  alive : Nat
deriving DecidableEq, Repr

/-- `WeakArena::alloc` / `alloc_with`: bump-allocate the layout, write
the value (contents untracked), register a `DropHandler` when the type
needs dropping, and hand back a `WeakBox` sharing the current liveness
cell.  The ghost serial counter advances once per allocation. -/
def WeakArena.alloc (a : WeakArena) (t : TypeInfo) (m : Mem) :
    Except String (WeakBox × WeakArena × Mem) :=
  match a.alloc_layout t.layout m with
  | .error e => .error e
  | .ok (data_ptr, a', m') =>
    let a'' :=
      if t.needs_drop then
        { a' with drop_handlers :=
            a'.drop_handlers ++ [{ value := data_ptr, serial := m'.next_serial }] }
      else a'
    .ok ({ ptr := data_ptr, alive := a''.alive }, a'',
         { m' with next_serial := m'.next_serial + 1 })

/-- Read the liveness cell with index `id` (`Cell::get`). -/
def flagGet (m : Mem) (id : Nat) : Bool := (m.flags.get? id).getD false

/-- `WeakBox::as_ref`: check the flag, then hand out the address. -/
def WeakBox.as_ref (b : WeakBox) (m : Mem) : Option Nat :=
  if flagGet m b.alive then some b.ptr else none

/-- `WeakBox::as_mut`. -/
def WeakBox.as_mut (b : WeakBox) (m : Mem) : Option Nat :=
  if flagGet m b.alive then some b.ptr else none

/-- `Deref for WeakBox`: `as_ref().expect("Dead resource")`. -/
def WeakBox.deref (b : WeakBox) (m : Mem) : Except String Nat :=
  match b.as_ref m with
  | some p => .ok p
  | none => .error "Dead resource"

/-- `DerefMut for WeakBox`. -/
def WeakBox.deref_mut (b : WeakBox) (m : Mem) : Except String Nat :=
  match b.as_mut m with
  | some p => .ok p
  | none => .error "Dead resource"

/-- `WeakBox::into_shared`: moves the address and the flag reference. -/
def WeakBox.into_shared (b : WeakBox) : WeakShared :=
  { ptr := b.ptr, alive := b.alive }

/-- `WeakShared::as_ref`. -/
def WeakShared.as_ref (s : WeakShared) (m : Mem) : Option Nat :=
  if flagGet m s.alive then some s.ptr else none

/-- `Deref for WeakShared`. -/
def WeakShared.deref (s : WeakShared) (m : Mem) : Except String Nat :=
  match s.as_ref m with
  | some p => .ok p
  | none => .error "Dead resource"

/-- `Clone for WeakShared`: `Rc::clone` copies the cell index. -/
def WeakShared.clone (s : WeakShared) : WeakShared :=
  { ptr := s.ptr, alive := s.alive }

/-- `Drop for WeakArena` calls `self.clear()` (the sole remaining
page's deallocation is not otherwise observable in the model). -/
def WeakArena.dropArena (a : WeakArena) (m : Mem) :
    Except String (WeakArena × Mem) :=
  a.clear m

/-- One public operation on an arena. -/
inductive Op where
  | allocOp (t : TypeInfo)
  | clearOp
deriving DecidableEq, Repr

/-- Run one operation, discarding the returned handle. -/
def runOp (a : WeakArena) (m : Mem) : Op → Except String (WeakArena × Mem)
  | .allocOp t =>
    match a.alloc t m with
    | .error e => .error e
    | .ok (_, a', m') => .ok (a', m')
  | .clearOp => a.clear m

/-- Run a sequence of operations. -/
def runOps (a : WeakArena) (m : Mem) : List Op → Except String (WeakArena × Mem)
  | [] => .ok (a, m)
  | op :: ops =>
    match runOp a m op with
    | .error e => .error e
    | .ok (a', m') => runOps a' m' ops

/-- Allocation-only operation sequence. -/
def allocOps (ts : List TypeInfo) : List Op := ts.map Op.allocOp

/-- Arena states reachable by a single arena driven from a fresh world. -/
inductive Reach : WeakArena → Mem → Prop
  | new (ps : Nat) (a : WeakArena) (m : Mem) :
      WeakArena.new ps Mem.init = .ok (a, m) → Reach a m
  | allocStep (a : WeakArena) (m : Mem) (t : TypeInfo) (b : WeakBox)
      (a' : WeakArena) (m' : Mem) : Reach a m →
      WeakArena.alloc a t m = .ok (b, a', m') → Reach a' m'
  | clearStep (a : WeakArena) (m : Mem) (a' : WeakArena) (m' : Mem) :
      Reach a m → WeakArena.clear a m = .ok (a', m') → Reach a' m'

/-- Pages are well formed: the stored end address is start plus size,
the start is `mallocAlign`-aligned (as `allocRaw` hands out), and the
size is positive (the `assert_ne!` in `AllocationPage::new`). -/
def pageWf (p : AllocationPage) : Prop :=
  p.endAddr = p.start + p.layout.size ∧
  p.start % mallocAlign = 0 ∧
  0 < p.layout.size

/-- The state invariant of a reachable arena. -/
structure ArenaInv (a : WeakArena) (m : Mem) : Prop where
  pages_ne : a.pages ≠ []
  cur_page : a.cursor.page + 1 = a.pages.length
  cur_in : ∃ pg, a.pages.get? a.cursor.page = some pg ∧
      pg.start ≤ a.cursor.offset ∧ a.cursor.offset ≤ pg.endAddr
  ps_pos : 0 < a.page_size
  ps_last : ∃ lastPg, a.pages.getLast? = some lastPg ∧
      lastPg.layout.size = a.page_size
  sizes_lt : List.Pairwise (fun p q => p.layout.size < q.layout.size) a.pages
  pages_wf : ∀ p ∈ a.pages, pageWf p
  alive_lt : a.alive < m.flags.length
  alive_tt : m.flags.get? a.alive = some true
  others_ff : ∀ i, i < m.flags.length → i ≠ a.alive →
      m.flags.get? i = some false

/-- Cursor-movement property exactly as claim C6 words it: across an
operation the cursor either moves forward within the same page, or
jumps to the start of a newly appended page. -/
def claimMove (a a' : WeakArena) : Prop :=
  (a'.cursor.page = a.cursor.page ∧ a.cursor.offset ≤ a'.cursor.offset) ∨
  (∃ p, a'.pages = a.pages ++ [p] ∧ a'.cursor.offset = p.start)

/-- Amended cursor-movement property: forward within the same page, or
into a newly appended page at the end of the reservation placed at its
start, or — on `clear` — reset to the start of the retained page. -/
def amendedMove (a a' : WeakArena) : Prop :=
  (a'.pages = a.pages ∧ a'.cursor.page = a.cursor.page ∧
    a.cursor.offset ≤ a'.cursor.offset) ∨
  (∃ p, a'.pages = a.pages ++ [p] ∧ a'.cursor.page = a.pages.length ∧
    p.start ≤ a'.cursor.offset ∧ a'.cursor.offset ≤ p.endAddr) ∨
  (∃ p, a.pages.getLast? = some p ∧ a'.pages = [p] ∧
    a'.cursor.page = 0 ∧ a'.cursor.offset = p.start)

/-- End of the bump reservation for layout `l` when the cursor sits at
`off`: alignment padding first, then the size. -/
def bumpEnd (off : Nat) (l : Layout) : Nat :=
  off + alignOffset off l.align + l.size

/-- Ghost serial numbers of the allocations in `ts` whose type needs
dropping, in allocation order, when the first allocation gets serial
`s0`. -/
def expectedSerials (s0 : Nat) : List TypeInfo → List Nat
  | [] => []
  | t :: ts =>
    if t.needs_drop then s0 :: expectedSerials (s0 + 1) ts
    else expectedSerials (s0 + 1) ts

/-- `TypeInfo` of `i32`: 4 bytes, 4-aligned, no destructor. -/
def i32Info : TypeInfo :=
  { layout := { size := 4, align := 4 }, needs_drop := false }

/-- Fresh arena of page size 4 followed by `n` `i32` allocations — the
scenario of claim C8 (and of the source's `page_grows_exp` test). -/
def c8run (n : Nat) : Except String (WeakArena × Mem) :=
  match WeakArena.new 4 Mem.init with
  | .error e => .error e
  | .ok (a, m) => runOps a m (List.replicate n (.allocOp i32Info))

/-- Page count after `n` allocations in the claim C8 scenario. -/
def pageCountAfter (n : Nat) : Option Nat :=
  (c8run n).toOption.map (fun p => p.1.pages.length)

/-- Fresh arena with page size 4: `WeakArena.new 4 Mem.init`. -/
def A0 : WeakArena :=
  { page_size := 4
    pages := [{ layout := { size := 4, align := 1 }, start := 16, endAddr := 20 }]
    cursor := { page := 0, offset := 16 }
    drop_handlers := []
    alive := 0 }

/-- World accompanying `A0`. -/
def M0 : Mem :=
  { alloc_state := { next := 20, calls := [4] }
    flags := [true]
    drop_trace := []
    next_serial := 0 }

/-- `A0` after `clear()`. -/
def A1 : WeakArena :=
  { page_size := 4
    pages := [{ layout := { size := 4, align := 1 }, start := 16, endAddr := 20 }]
    cursor := { page := 0, offset := 16 }
    drop_handlers := []
    alive := 1 }

/-- World accompanying `A1`. -/
def M1 : Mem :=
  { alloc_state := { next := 20, calls := [4] }
    flags := [false, true]
    drop_trace := []
    next_serial := 0 }

/-- `A1` after an 8-byte allocation that does not fit the retained
4-byte page: a second page appears. -/
def A2 : WeakArena :=
  { page_size := 8
    pages := [{ layout := { size := 4, align := 1 }, start := 16, endAddr := 20 },
              { layout := { size := 8, align := 1 }, start := 32, endAddr := 40 }]
    cursor := { page := 1, offset := 40 }
    drop_handlers := []
    alive := 1 }

/-- World accompanying `A2`. -/
def M2 : Mem :=
  { alloc_state := { next := 40, calls := [4, 8] }
    flags := [false, true]
    drop_trace := []
    next_serial := 0 }

/-- `A0` after one `i32` allocation filling its page. -/
def A3 : WeakArena :=
  { page_size := 4
    pages := [{ layout := { size := 4, align := 1 }, start := 16, endAddr := 20 }]
    cursor := { page := 0, offset := 20 }
    drop_handlers := []
    alive := 0 }

/-- World accompanying `A3`. -/
def M3 : Mem :=
  { alloc_state := { next := 20, calls := [4] }
    flags := [true]
    drop_trace := []
    next_serial := 1 }

/-- `A3` after `clear()`: the cursor moved backwards to the page start. -/
def A4 : WeakArena :=
  { page_size := 4
    pages := [{ layout := { size := 4, align := 1 }, start := 16, endAddr := 20 }]
    cursor := { page := 0, offset := 16 }
    drop_handlers := []
    alive := 1 }

/-- World accompanying `A4`. -/
def M4 : Mem :=
  { alloc_state := { next := 20, calls := [4] }
    flags := [false, true]
    drop_trace := []
    next_serial := 1 }

/-- Fresh arena with page size 5: `WeakArena.new 5 Mem.init`. -/
def A5 : WeakArena :=
  { page_size := 5
    pages := [{ layout := { size := 5, align := 1 }, start := 16, endAddr := 21 }]
    cursor := { page := 0, offset := 16 }
    drop_handlers := []
    alive := 0 }

/-- World accompanying `A5`. -/
def M5 : Mem :=
  { alloc_state := { next := 21, calls := [5] }
    flags := [true]
    drop_trace := []
    next_serial := 0 }

/-- `A5` after allocating 1 byte (align 1) and then 4 bytes (align 4):
alignment padding pushed the second allocation past the page end even
though the sizes sum to only 5. -/
def A6 : WeakArena :=
  { page_size := 10
    pages := [{ layout := { size := 5, align := 1 }, start := 16, endAddr := 21 },
              { layout := { size := 10, align := 1 }, start := 32, endAddr := 42 }]
    cursor := { page := 1, offset := 36 }
    drop_handlers := []
    alive := 0 }

/-- World accompanying `A6`. -/
def M6 : Mem :=
  { alloc_state := { next := 42, calls := [5, 10] }
    flags := [true]
    drop_trace := []
    next_serial := 2 }

/-- `A0` after allocating one value whose type needs dropping: a
`DropHandler` with ghost serial 0 is registered. -/
def A7 : WeakArena :=
  { page_size := 4
    pages := [{ layout := { size := 4, align := 1 }, start := 16, endAddr := 20 }]
    cursor := { page := 0, offset := 20 }
    drop_handlers := [{ value := 16, serial := 0 }]
    alive := 0 }

/-- World accompanying `A7`. -/
def M7 : Mem :=
  { alloc_state := { next := 20, calls := [4] }
    flags := [true]
    drop_trace := []
    next_serial := 1 }

/-- `A7` after `clear()`: the handler ran (appended to the trace). -/
def A8 : WeakArena :=
  { page_size := 4
    pages := [{ layout := { size := 4, align := 1 }, start := 16, endAddr := 20 }]
    cursor := { page := 0, offset := 16 }
    drop_handlers := []
    alive := 1 }

/-- World accompanying `A8`. -/
def M8 : Mem :=
  { alloc_state := { next := 20, calls := [4] }
    flags := [false, true]
    drop_trace := [{ value := 16, serial := 0 }]
    next_serial := 1 }

/-! Arithmetic helper lemmas. -/

theorem roundUp_mallocAlign_mod (n : Nat) :
    roundUp n mallocAlign % mallocAlign = 0 := by
  unfold roundUp mallocAlign
  simp [Nat.mul_mod_left]

theorem add_alignOffset_mod (addr a : Nat) (ha : 0 < a) :
    (addr + alignOffset addr a) % a = 0 := by
  unfold alignOffset
  rcases Nat.eq_zero_or_pos (addr % a) with h | h
  · rw [h, Nat.sub_zero, Nat.mod_self, Nat.add_zero, h]
  · have hlt : addr % a < a := Nat.mod_lt _ ha
    have h1 : (a - addr % a) % a = a - addr % a := Nat.mod_eq_of_lt (by omega)
    rw [h1, Nat.add_mod, h1]
    have h2 : addr % a + (a - addr % a) = a := by omega
    rw [h2, Nat.mod_self]

theorem alignOffset_eq_zero (addr a : Nat) (hd : a ∣ mallocAlign)
    (hm : addr % mallocAlign = 0) : alignOffset addr a = 0 := by
  have hda : a ∣ addr := dvd_trans hd (Nat.dvd_of_mod_eq_zero hm)
  obtain ⟨k, rfl⟩ := hda
  unfold alignOffset
  simp [Nat.mul_mod_right]

/-! List helper lemmas (proved directly, over `List.get?`). -/

theorem listGet_append_left {α : Type} (l₁ l₂ : List α) (i : Nat)
    (h : i < l₁.length) : (l₁ ++ l₂).get? i = l₁.get? i := by
  induction l₁ generalizing i with
  | nil => simp at h
  | cons x xs ih =>
    cases i with
    | zero => rfl
    | succ j => exact ih j (Nat.lt_of_succ_lt_succ h)

theorem listGet_append_length {α : Type} (l : List α) (x : α) :
    (l ++ [x]).get? l.length = some x := by
  induction l with
  | nil => rfl
  | cons y ys ih => exact ih

theorem listGet_set_self {α : Type} (l : List α) (i : Nat) (x : α)
    (h : i < l.length) : (l.set i x).get? i = some x := by
  induction l generalizing i with
  | nil => simp at h
  | cons y ys ih =>
    cases i with
    | zero => rfl
    | succ j => exact ih j (Nat.lt_of_succ_lt_succ h)

theorem listGet_set_of_ne {α : Type} (l : List α) (i j : Nat) (x : α)
    (h : i ≠ j) : (l.set i x).get? j = l.get? j := by
  induction l generalizing i j with
  | nil => rfl
  | cons y ys ih =>
    cases i with
    | zero =>
      cases j with
      | zero => exact absurd rfl h
      | succ k => rfl
    | succ i2 =>
      cases j with
      | zero => rfl
      | succ k => exact ih i2 k (fun hh => h (by rw [hh]))

theorem listGetLast_append_single {α : Type} (l : List α) (x : α) :
    (l ++ [x]).getLast? = some x := by
  induction l with
  | nil => rfl
  | cons y ys ih =>
    rw [List.cons_append]
    cases h : ys ++ [x] with
    | nil => exact absurd h (by simp)
    | cons z zs =>
      rw [List.getLast?_cons_cons, ← h]
      exact ih

theorem listDrop_pred_getLast {α : Type} (l : List α) (x : α)
    (h : l.getLast? = some x) : l.drop (l.length - 1) = [x] := by
  induction l with
  | nil => exact absurd h (by simp)
  | cons y ys ih =>
    cases ys with
    | nil =>
      simp only [List.getLast?_singleton, Option.some.injEq] at h
      rw [h]
      rfl
    | cons z zs =>
      rw [List.getLast?_cons_cons] at h
      have h2 : (y :: z :: zs).length - 1 = (z :: zs).length := rfl
      rw [h2]
      have h3 : (z :: zs).length = ((z :: zs).length - 1) + 1 := rfl
      rw [h3, List.drop_succ_cons]
      exact ih h

theorem listGetLast_mem {α : Type} (l : List α) (x : α)
    (h : l.getLast? = some x) : x ∈ l := by
  have h2 := listDrop_pred_getLast l x h
  have h3 : x ∈ l.drop (l.length - 1) := by
    rw [h2]
    exact List.mem_singleton_self x
  exact List.drop_subset _ l h3

theorem pairwise_size_le_getLast (l : List AllocationPage) (x : AllocationPage)
    (hp : List.Pairwise (fun p q => p.layout.size < q.layout.size) l)
    (hl : l.getLast? = some x) :
    ∀ p ∈ l, p.layout.size ≤ x.layout.size := by
  induction l with
  | nil => intro p hm; cases hm
  | cons y ys ih =>
    intro p hm
    cases ys with
    | nil =>
      simp only [List.getLast?_singleton, Option.some.injEq] at hl
      rcases List.mem_singleton.mp hm with rfl
      rw [hl]
    | cons z zs =>
      rw [List.getLast?_cons_cons] at hl
      have hx : x ∈ z :: zs := listGetLast_mem _ _ hl
      rcases List.mem_cons.mp hm with rfl | hm2
      · exact le_of_lt ((List.pairwise_cons.mp hp).1 x hx)
      · exact ih (List.pairwise_cons.mp hp).2 hl p hm2

/-! Characterizations of the allocation operations. -/

theorem try_alloc_layout_some (p : AllocationPage) (c : Nat) (l : Layout)
    (s e : Nat) (h : p.try_alloc_layout c l = some (s, e)) :
    s = c + alignOffset c l.align ∧ e = s + l.size ∧ e ≤ p.endAddr := by
  simp only [AllocationPage.try_alloc_layout] at h
  split at h
  · rename_i hle
    injection h with h2
    injection h2 with h3 h4
    subst h3
    subst h4
    exact ⟨rfl, rfl, hle⟩
  · exact Option.noConfusion h

theorem try_alloc_layout_fits (p : AllocationPage) (c : Nat) (l : Layout)
    (h : c + alignOffset c l.align + l.size ≤ p.endAddr) :
    p.try_alloc_layout c l =
      some (c + alignOffset c l.align, c + alignOffset c l.align + l.size) := by
  simp only [AllocationPage.try_alloc_layout]
  rw [if_pos h]

theorem try_alloc_layout_none_iff (p : AllocationPage) (c : Nat) (l : Layout) :
    p.try_alloc_layout c l = none ↔
      p.endAddr < c + alignOffset c l.align + l.size := by
  simp only [AllocationPage.try_alloc_layout]
  split
  · rename_i h
    constructor
    · intro h2
      exact Option.noConfusion h2
    · intro h2
      omega
  · rename_i h
    constructor
    · intro _
      omega
    · intro _
      rfl

theorem allocationPage_new_ok (size : Nat) (st : AllocState)
    (p : AllocationPage) (st' : AllocState)
    (h : AllocationPage.new size st = .ok (p, st')) :
    0 < size ∧
    p.layout = { size := size, align := 1 } ∧
    p.start = roundUp st.next mallocAlign ∧
    p.endAddr = p.start + size ∧
    st' = { next := p.start + size, calls := st.calls ++ [size] } := by
  simp only [AllocationPage.new, allocRaw] at h
  split at h
  · exact Except.noConfusion h
  · rename_i hne
    injection h with h2
    injection h2 with h3 h4
    subst h3
    subst h4
    refine ⟨Nat.pos_of_ne_zero hne, rfl, rfl, rfl, rfl⟩

theorem allocationPage_new_pos (size : Nat) (st : AllocState)
    (h : 0 < size) :
    AllocationPage.new size st =
      .ok ({ layout := { size := size, align := 1 }
             start := roundUp st.next mallocAlign
             endAddr := roundUp st.next mallocAlign + size },
           { next := roundUp st.next mallocAlign + size
             calls := st.calls ++ [size] }) := by
  simp only [AllocationPage.new, allocRaw]
  rw [if_neg (Nat.pos_iff_ne_zero.mp h)]

theorem alloc_in_current_page_some (a : WeakArena) (l : Layout) (dp : Nat)
    (a' : WeakArena) (h : a.alloc_in_current_page l = some (dp, a')) :
    ∃ pg de, a.pages.get? a.cursor.page = some pg ∧
      pg.try_alloc_layout a.cursor.offset l = some (dp, de) ∧
      a' = { a with cursor := { page := a.cursor.page, offset := de } } := by
  simp only [WeakArena.alloc_in_current_page] at h
  split at h
  · exact Option.noConfusion h
  · rename_i pg hg
    split at h
    · exact Option.noConfusion h
    · rename_i dp2 de ht
      injection h with h2
      injection h2 with h3 h4
      subst h3
      subst h4
      exact ⟨pg, de, hg, ht, rfl⟩

theorem alloc_in_new_page_ok (a : WeakArena) (l : Layout) (m : Mem)
    (dp : Nat) (a' : WeakArena) (m' : Mem)
    (h : a.alloc_in_new_page l m = .ok (dp, a', m')) :
    ∃ page st de,
      AllocationPage.new (max (a.page_size * 2) l.size) m.alloc_state =
        .ok (page, st) ∧
      page.try_alloc_layout page.start l = some (dp, de) ∧
      a' = { a with page_size := max (a.page_size * 2) l.size
                    pages := a.pages ++ [page]
                    cursor := { page := a.pages.length, offset := de } } ∧
      m' = { m with alloc_state := st } := by
  simp only [WeakArena.alloc_in_new_page] at h
  split at h
  · exact Except.noConfusion h
  · rename_i page st hn
    split at h
    · exact Except.noConfusion h
    · rename_i dp2 de ht
      injection h with h2
      injection h2 with h3 h4
      injection h4 with h5 h6
      subst h3
      subst h5
      subst h6
      exact ⟨page, st, de, hn, ht, rfl, rfl⟩

theorem alloc_layout_cases (a : WeakArena) (l : Layout) (m : Mem)
    (dp : Nat) (a' : WeakArena) (m' : Mem)
    (h : a.alloc_layout l m = .ok (dp, a', m')) :
    (a.alloc_in_current_page l = some (dp, a') ∧ m' = m) ∨
    (a.alloc_in_current_page l = none ∧
      a.alloc_in_new_page l m = .ok (dp, a', m')) := by
  simp only [WeakArena.alloc_layout] at h
  split at h
  · rename_i dp2 a2 hc
    injection h with h2
    injection h2 with h3 h4
    injection h4 with h5 h6
    subst h3
    subst h5
    subst h6
    exact Or.inl ⟨hc, rfl⟩
  · rename_i hc
    exact Or.inr ⟨hc, h⟩

theorem weakArena_alloc_ok (a : WeakArena) (t : TypeInfo) (m : Mem)
    (b : WeakBox) (a' : WeakArena) (m' : Mem)
    (h : a.alloc t m = .ok (b, a', m')) :
    ∃ dp a1 m1, a.alloc_layout t.layout m = .ok (dp, a1, m1) ∧
      a' = (if t.needs_drop then
        { a1 with drop_handlers :=
            a1.drop_handlers ++ [{ value := dp, serial := m1.next_serial }] }
        else a1) ∧
      b = { ptr := dp, alive := a'.alive } ∧
      m' = { m1 with next_serial := m1.next_serial + 1 } := by
  simp only [WeakArena.alloc] at h
  cases hl : a.alloc_layout t.layout m with
  | error e =>
    rw [hl] at h
    exact Except.noConfusion h
  | ok pr =>
    obtain ⟨dp, a1, m1⟩ := pr
    rw [hl] at h
    injection h with h2
    injection h2 with h3 h4
    injection h4 with h5 h6
    subst h3
    subst h5
    subst h6
    exact ⟨dp, a1, m1, rfl, rfl, rfl, rfl⟩

theorem clear_ok (a : WeakArena) (m : Mem) (a' : WeakArena) (m' : Mem)
    (h : a.clear m = .ok (a', m')) :
    ∃ p0, (a.pages.drop (a.pages.length - 1)).head? = some p0 ∧
      a' = { a with pages := a.pages.drop (a.pages.length - 1)
                    drop_handlers := []
                    alive := m.flags.length
                    cursor := { page := 0, offset := p0.start } } ∧
      m' = { m with drop_trace := m.drop_trace ++ a.drop_handlers
                    flags := (m.flags.set a.alive false) ++ [true] } := by
  simp only [WeakArena.clear] at h
  cases hh : (a.pages.drop (a.pages.length - 1)).head? with
  | none =>
    rw [hh] at h
    exact Except.noConfusion h
  | some p0 =>
    rw [hh] at h
    injection h with h2
    injection h2 with h3 h4
    subst h3
    subst h4
    exact ⟨p0, rfl, rfl, rfl⟩

/-! Invariant preservation. -/

theorem inv_new (ps : Nat) (a : WeakArena) (m : Mem)
    (h : WeakArena.new ps Mem.init = .ok (a, m)) : ArenaInv a m := by
  simp only [WeakArena.new] at h
  split at h
  · exact Except.noConfusion h
  · rename_i page st hn
    injection h with h2
    injection h2 with h3 h4
    subst h3
    subst h4
    obtain ⟨hpos, hlay, hstart, hend, hst⟩ := allocationPage_new_ok _ _ _ _ hn
    refine
      { pages_ne := by simp
        cur_page := rfl
        cur_in := ⟨page, rfl, Nat.le_refl _, by rw [hend]; exact Nat.le_add_right _ _⟩
        ps_pos := hpos
        ps_last := ⟨page, by simp, by rw [hlay]⟩
        sizes_lt := List.pairwise_singleton _ _
        pages_wf := ?_
        alive_lt := by simp
        alive_tt := rfl
        others_ff := ?_ }
    · intro p hp
      rw [List.mem_singleton] at hp
      subst hp
      exact ⟨by rw [hlay]; exact hend,
             by rw [hstart]; exact roundUp_mallocAlign_mod _,
             by rw [hlay]; exact hpos⟩
    · intro i h1 h2
      simp [Mem.init] at h1 h2
      omega

theorem inv_alloc_layout (a : WeakArena) (m : Mem) (l : Layout)
    (dp : Nat) (a' : WeakArena) (m' : Mem)
    (hi : ArenaInv a m) (h : a.alloc_layout l m = .ok (dp, a', m')) :
    ArenaInv a' m' ∧ m'.flags = m.flags ∧ a'.alive = a.alive ∧
      a'.drop_handlers = a.drop_handlers := by
  rcases alloc_layout_cases _ _ _ _ _ _ h with ⟨hc, hm⟩ | ⟨hc, hn⟩
  · obtain ⟨pg, de, hg, ht, ha⟩ := alloc_in_current_page_some _ _ _ _ hc
    obtain ⟨hs, he, hle⟩ := try_alloc_layout_some _ _ _ _ _ ht
    obtain ⟨pg0, hg0, hlo, hhi⟩ := hi.cur_in
    rw [hg0] at hg
    injection hg with hpg
    subst hpg
    subst ha
    subst hm
    refine ⟨{ pages_ne := hi.pages_ne
              cur_page := hi.cur_page
              cur_in := ⟨pg0, hg0, by show pg0.start ≤ de; omega, hle⟩
              ps_pos := hi.ps_pos
              ps_last := hi.ps_last
              sizes_lt := hi.sizes_lt
              pages_wf := hi.pages_wf
              alive_lt := hi.alive_lt
              alive_tt := hi.alive_tt
              others_ff := hi.others_ff }, rfl, rfl, rfl⟩
  · obtain ⟨page, st, de, hnew, ht, ha, hm⟩ := alloc_in_new_page_ok _ _ _ _ _ _ hn
    obtain ⟨hpos, hlay, hstart, hend, hst⟩ := allocationPage_new_ok _ _ _ _ hnew
    obtain ⟨hs, he, hle⟩ := try_alloc_layout_some _ _ _ _ _ ht
    obtain ⟨lastPg, hlast, hsize⟩ := hi.ps_last
    subst ha
    subst hm
    have hmax1 : a.page_size * 2 ≤ max (a.page_size * 2) l.size :=
      Nat.le_max_left _ _
    refine ⟨{ pages_ne := by simp
              cur_page := by simp
              cur_in := ⟨page, listGet_append_length _ _,
                by show page.start ≤ de; omega, hle⟩
              ps_pos := ?_
              ps_last := ⟨page, listGetLast_append_single _ _, by rw [hlay]⟩
              sizes_lt := ?_
              pages_wf := ?_
              alive_lt := hi.alive_lt
              alive_tt := hi.alive_tt
              others_ff := hi.others_ff }, rfl, rfl, rfl⟩
    · show 0 < max (a.page_size * 2) l.size
      have h1 := hi.ps_pos
      omega
    · rw [List.pairwise_append]
      refine ⟨hi.sizes_lt, List.pairwise_singleton _ _, ?_⟩
      intro p hp q hq2
      rw [List.mem_singleton] at hq2
      have hple : p.layout.size ≤ lastPg.layout.size :=
        pairwise_size_le_getLast _ _ hi.sizes_lt hlast p hp
      have hq3 : q.layout.size = max (a.page_size * 2) l.size := by
        rw [hq2, hlay]
      have h4 := hi.ps_pos
      have h5 := Nat.le_max_left (a.page_size * 2) l.size
      rw [hq3]
      omega
    · intro p hp
      rcases List.mem_append.mp hp with hp1 | hp2
      · exact hi.pages_wf p hp1
      · rw [List.mem_singleton] at hp2
        subst hp2
        exact ⟨by rw [hlay]; exact hend,
               by rw [hstart]; exact roundUp_mallocAlign_mod _,
               by rw [hlay]; exact hpos⟩

theorem inv_alloc (a : WeakArena) (m : Mem) (t : TypeInfo) (b : WeakBox)
    (a' : WeakArena) (m' : Mem) (hi : ArenaInv a m)
    (h : a.alloc t m = .ok (b, a', m')) : ArenaInv a' m' := by
  obtain ⟨dp, a1, m1, hl, ha, hb, hm⟩ := weakArena_alloc_ok _ _ _ _ _ _ h
  obtain ⟨hi1, hflags, halive, hdh⟩ := inv_alloc_layout _ _ _ _ _ _ hi hl
  subst ha
  subst hm
  cases hd : t.needs_drop with
  | false =>
    simp only [hd, if_false, Bool.false_eq_true]
    exact
      { pages_ne := hi1.pages_ne
        cur_page := hi1.cur_page
        cur_in := hi1.cur_in
        ps_pos := hi1.ps_pos
        ps_last := hi1.ps_last
        sizes_lt := hi1.sizes_lt
        pages_wf := hi1.pages_wf
        alive_lt := hi1.alive_lt
        alive_tt := hi1.alive_tt
        others_ff := hi1.others_ff }
  | true =>
    simp only [hd, if_true]
    exact
      { pages_ne := hi1.pages_ne
        cur_page := hi1.cur_page
        cur_in := hi1.cur_in
        ps_pos := hi1.ps_pos
        ps_last := hi1.ps_last
        sizes_lt := hi1.sizes_lt
        pages_wf := hi1.pages_wf
        alive_lt := hi1.alive_lt
        alive_tt := hi1.alive_tt
        others_ff := hi1.others_ff }

theorem inv_clear (a : WeakArena) (m : Mem) (a' : WeakArena) (m' : Mem)
    (hi : ArenaInv a m) (h : a.clear m = .ok (a', m')) : ArenaInv a' m' := by
  obtain ⟨p0, hh, ha, hm⟩ := clear_ok _ _ _ _ h
  obtain ⟨lastPg, hlast, hsize⟩ := hi.ps_last
  have hdrop : a.pages.drop (a.pages.length - 1) = [lastPg] :=
    listDrop_pred_getLast _ _ hlast
  rw [hdrop] at hh ha
  injection hh with hp0
  subst hp0
  subst ha
  subst hm
  have hmem : lastPg ∈ a.pages := listGetLast_mem _ _ hlast
  have hwf := hi.pages_wf lastPg hmem
  refine
    { pages_ne := by simp
      cur_page := rfl
      cur_in := ⟨lastPg, rfl, Nat.le_refl _, by rw [hwf.1]; exact Nat.le_add_right _ _⟩
      ps_pos := hi.ps_pos
      ps_last := ⟨lastPg, by simp, hsize⟩
      sizes_lt := List.pairwise_singleton _ _
      pages_wf := ?_
      alive_lt := by simp
      alive_tt := ?_
      others_ff := ?_ }
  · intro p hp
    rw [List.mem_singleton] at hp
    subst hp
    exact hwf
  · have h1 := listGet_append_length (m.flags.set a.alive false) true
    rw [List.length_set] at h1
    exact h1
  · intro i h1 h2
    simp only [List.length_append, List.length_set, List.length_cons,
      List.length_nil] at h1
    have h2b : i ≠ m.flags.length := h2
    have hlt : i < m.flags.length := by omega
    have h3 : ((m.flags.set a.alive false) ++ [true]).get? i =
        (m.flags.set a.alive false).get? i := by
      apply listGet_append_left
      rw [List.length_set]
      exact hlt
    rw [h3]
    by_cases he : i = a.alive
    · subst he
      exact listGet_set_self _ _ _ hi.alive_lt
    · rw [listGet_set_of_ne _ _ _ _ (fun hh2 => he hh2.symm)]
      exact hi.others_ff i hlt he

theorem reach_inv (a : WeakArena) (m : Mem) (h : Reach a m) : ArenaInv a m := by
  induction h with
  | new ps a m hn => exact inv_new ps a m hn
  | allocStep a m t b a2 m2 hr ha ih => exact inv_alloc _ _ _ _ _ _ ih ha
  | clearStep a m a2 m2 hr hc ih => exact inv_clear _ _ _ _ ih hc

/-! Liveness-flag lemmas. -/

theorem alloc_flags_preserved (a : WeakArena) (t : TypeInfo) (m : Mem)
    (b : WeakBox) (a' : WeakArena) (m' : Mem)
    (h : a.alloc t m = .ok (b, a', m')) : m'.flags = m.flags := by
  obtain ⟨dp, a1, m1, hl, ha, hb, hm⟩ := weakArena_alloc_ok _ _ _ _ _ _ h
  subst hm
  rcases alloc_layout_cases _ _ _ _ _ _ hl with ⟨hc, hm1⟩ | ⟨hc, hn⟩
  · subst hm1
    rfl
  · obtain ⟨page, st, de, hnew, ht, ha1, hm1⟩ := alloc_in_new_page_ok _ _ _ _ _ _ hn
    subst hm1
    rfl

theorem clear_flags_eq (a : WeakArena) (m : Mem) (a' : WeakArena) (m' : Mem)
    (h : a.clear m = .ok (a', m')) :
    m'.flags = (m.flags.set a.alive false) ++ [true] := by
  obtain ⟨p0, hh, ha, hm⟩ := clear_ok _ _ _ _ h
  subst hm
  rfl

theorem flag_false_step (a : WeakArena) (m : Mem) (op : Op)
    (a' : WeakArena) (m' : Mem) (i : Nat)
    (h : runOp a m op = .ok (a', m'))
    (hlt : i < m.flags.length) (hf : m.flags.get? i = some false) :
    i < m'.flags.length ∧ m'.flags.get? i = some false := by
  cases op with
  | allocOp t =>
    simp only [runOp] at h
    split at h
    · exact Except.noConfusion h
    · rename_i b a2 m2 halloc
      injection h with h2
      injection h2 with h3 h4
      subst h3
      subst h4
      rw [alloc_flags_preserved _ _ _ _ _ _ halloc]
      exact ⟨hlt, hf⟩
  | clearOp =>
    simp only [runOp] at h
    rw [clear_flags_eq _ _ _ _ h]
    constructor
    · simp only [List.length_append, List.length_set, List.length_cons,
        List.length_nil]
      omega
    · have h3 : ((m.flags.set a.alive false) ++ [true]).get? i =
          (m.flags.set a.alive false).get? i := by
        apply listGet_append_left
        rw [List.length_set]
        exact hlt
      rw [h3]
      by_cases he : i = a.alive
      · subst he
        exact listGet_set_self _ _ _ hlt
      · rw [listGet_set_of_ne _ _ _ _ (fun hh2 => he hh2.symm)]
        exact hf

theorem flag_false_run (ops : List Op) (a : WeakArena) (m : Mem)
    (a' : WeakArena) (m' : Mem) (i : Nat)
    (h : runOps a m ops = .ok (a', m'))
    (hlt : i < m.flags.length) (hf : m.flags.get? i = some false) :
    i < m'.flags.length ∧ m'.flags.get? i = some false := by
  induction ops generalizing a m with
  | nil =>
    simp only [runOps] at h
    injection h with h2
    injection h2 with h3 h4
    subst h3
    subst h4
    exact ⟨hlt, hf⟩
  | cons op ops ih =>
    simp only [runOps] at h
    split at h
    · exact Except.noConfusion h
    · rename_i a1 m1 hstep
      obtain ⟨hlt1, hf1⟩ := flag_false_step _ _ _ _ _ _ hstep hlt hf
      exact ih _ _ h hlt1 hf1

theorem clear_kills (a : WeakArena) (m : Mem) (a' : WeakArena) (m' : Mem)
    (hi : ArenaInv a m) (h : a.clear m = .ok (a', m'))
    (i : Nat) (hlt : i < m.flags.length) :
    i < m'.flags.length ∧ m'.flags.get? i = some false := by
  rw [clear_flags_eq _ _ _ _ h]
  constructor
  · simp only [List.length_append, List.length_set, List.length_cons,
      List.length_nil]
    omega
  · have h3 : ((m.flags.set a.alive false) ++ [true]).get? i =
        (m.flags.set a.alive false).get? i := by
      apply listGet_append_left
      rw [List.length_set]
      exact hlt
    rw [h3]
    by_cases he : i = a.alive
    · subst he
      exact listGet_set_self _ _ _ hlt
    · rw [listGet_set_of_ne _ _ _ _ (fun hh2 => he hh2.symm)]
      exact hi.others_ff i hlt he

theorem reach_A0 : Reach A0 M0 :=
  Reach.new 4 A0 M0 rfl

/-- C1: after `clear()`, every handle issued before that clear — every
`WeakBox`, every `WeakShared`, and every clone of a `WeakShared` — holds
a liveness cell that already existed before the clear (`f < m.flags.length`),
and after the clear followed by ANY sequence of further operations on the
arena (allocations and clears alike) that cell reads `false`, so
`as_ref`/`as_mut` return `none` and the dereference operators fail with
the fatal "Dead resource" error; no operation ever revives such a handle. -/
theorem clear_invalidates_handles_forever (a : WeakArena) (m : Mem)
    (hre : Reach a m) (f : Nat) (hf : f < m.flags.length)
    (a1 : WeakArena) (m1 : Mem) (hclear : a.clear m = .ok (a1, m1))
    (ops : List Op) (a2 : WeakArena) (m2 : Mem)
    (hops : runOps a1 m1 ops = .ok (a2, m2)) :
    flagGet m2 f = false ∧
    (∀ b : WeakBox, b.alive = f →
      b.as_ref m2 = none ∧ b.as_mut m2 = none ∧
      b.deref m2 = .error "Dead resource" ∧
      b.deref_mut m2 = .error "Dead resource" ∧
      b.into_shared.as_ref m2 = none ∧
      b.into_shared.deref m2 = .error "Dead resource") ∧
    (∀ s : WeakShared, s.alive = f →
      s.as_ref m2 = none ∧ s.clone.as_ref m2 = none ∧
      s.deref m2 = .error "Dead resource") := by
  have hi := reach_inv _ _ hre
  obtain ⟨hlt1, hf1⟩ := clear_kills _ _ _ _ hi hclear f hf
  obtain ⟨hlt2, hf2⟩ := flag_false_run _ _ _ _ _ _ hops hlt1 hf1
  have hget : flagGet m2 f = false := by
    unfold flagGet
    rw [hf2]
    rfl
  refine ⟨hget, ?_, ?_⟩
  · intro b hb
    have h1 : b.as_ref m2 = none := by
      simp [WeakBox.as_ref, hb, hget]
    have h2 : b.as_mut m2 = none := by
      simp [WeakBox.as_mut, hb, hget]
    have h5 : b.into_shared.as_ref m2 = none := by
      simp [WeakBox.into_shared, WeakShared.as_ref, hb, hget]
    refine ⟨h1, h2, ?_, ?_, h5, ?_⟩
    · simp [WeakBox.deref, h1]
    · simp [WeakBox.deref_mut, h2]
    · simp [WeakShared.deref, h5]
  · intro s hs
    have h1 : s.as_ref m2 = none := by
      simp [WeakShared.as_ref, hs, hget]
    have h2 : s.clone.as_ref m2 = none := by
      simp [WeakShared.clone, WeakShared.as_ref, hs, hget]
    refine ⟨h1, h2, ?_⟩
    simp [WeakShared.deref, h1]

/-- Witness for C1 at a concrete state: the fresh page-4 arena, its
pre-clear flag 0, an empty trailing operation list, and the handle of
its first allocation slot. -/
theorem clear_invalidates_handles_forever_witness :
    (Reach A0 M0 ∧ 0 < M0.flags.length ∧ A0.clear M0 = .ok (A1, M1) ∧
      runOps A1 M1 [] = .ok (A1, M1)) ∧
    flagGet M1 0 = false ∧
    WeakBox.as_ref { ptr := 16, alive := 0 } M1 = none ∧
    WeakShared.as_ref { ptr := 16, alive := 0 } M1 = none := by
  have h := clear_invalidates_handles_forever A0 M0 reach_A0 0 (by simp [M0])
    A1 M1 (by rfl) [] A1 M1 rfl
  exact ⟨⟨reach_A0, by simp [M0], by rfl, rfl⟩, h.1,
    (h.2.1 { ptr := 16, alive := 0 } rfl).1,
    (h.2.2 { ptr := 16, alive := 0 } rfl).1⟩

/-- C5: `try_alloc_layout(cursor, layout)` computes the alignment-adjusted
start and the end = start + size; it returns `none` exactly when that end
would exceed the page's end (the function is pure, so page and arena
state are untouched in every case), and otherwise returns the reserved
(start, end) interval with the start aligned to the layout's alignment,
start ≥ the candidate cursor, and end ≤ the page's end. -/
theorem try_alloc_layout_spec (p : AllocationPage) (c : Nat) (l : Layout)
    (ha : 0 < l.align) :
    (p.try_alloc_layout c l = none ↔
      p.endAddr < c + alignOffset c l.align + l.size) ∧
    (∀ s e, p.try_alloc_layout c l = some (s, e) →
      s = c + alignOffset c l.align ∧ e = s + l.size ∧
      c ≤ s ∧ s % l.align = 0 ∧ e ≤ p.endAddr) := by
  refine ⟨try_alloc_layout_none_iff _ _ _, ?_⟩
  intro s e h
  obtain ⟨hs, he, hle⟩ := try_alloc_layout_some _ _ _ _ _ h
  refine ⟨hs, he, ?_, ?_, hle⟩
  · rw [hs]
    exact Nat.le_add_right _ _
  · rw [hs]
    exact add_alignOffset_mod _ _ ha

/-- Witness for C5: a 4-byte page at [16, 20), cursor 16, layout (4, 4). -/
theorem try_alloc_layout_spec_witness :
    (16 : Nat) = 16 + alignOffset 16 4 ∧ (20 : Nat) = 16 + 4 ∧
    (16 : Nat) ≤ 16 ∧ (16 : Nat) % 4 = 0 ∧ (20 : Nat) ≤ 20 :=
  (try_alloc_layout_spec
    { layout := { size := 4, align := 1 }, start := 16, endAddr := 20 }
    16 { size := 4, align := 4 } (by decide)).2 16 20 (by rfl)

/-- C9: constructing a page with byte size zero fails on the explicit
`assert_ne!` before `alloc::alloc` is invoked (the ghost call trace is
not extended), and every successful construction passed exactly its
non-zero size to the allocation primitive. -/
theorem page_new_zero_size_asserts :
    (∀ st : AllocState,
      AllocationPage.new 0 st = .error "assertion failed: layout.size() != 0") ∧
    (∀ size st p st2, AllocationPage.new size st = .ok (p, st2) →
      st2.calls = st.calls ++ [size] ∧ 0 < size) := by
  constructor
  · intro st
    rfl
  · intro size st p st2 h
    obtain ⟨hpos, hlay, hstart, hend, hst⟩ := allocationPage_new_ok _ _ _ _ h
    subst hst
    exact ⟨rfl, hpos⟩

/-- Witness for C9: size 0 asserts; size 4 reaches the primitive with 4. -/
theorem page_new_zero_size_asserts_witness :
    AllocationPage.new 0 Mem.init.alloc_state =
      .error "assertion failed: layout.size() != 0" ∧
    ({ next := 20, calls := [4] } : AllocState).calls =
      ({ next := 1, calls := [] } : AllocState).calls ++ [4] ∧ 0 < 4 :=
  ⟨page_new_zero_size_asserts.1 Mem.init.alloc_state,
   page_new_zero_size_asserts.2 4 { next := 1, calls := [] }
     { layout := { size := 4, align := 1 }, start := 16, endAddr := 20 }
     { next := 20, calls := [4] } (by rfl)⟩

/-- C10: in every reachable arena state the page byte capacities are
strictly increasing in creation order, so the most-recently-created page
(the one `clear()` retains) is the largest. -/
theorem pages_sizes_strictly_increasing (a : WeakArena) (m : Mem)
    (hre : Reach a m) :
    List.Pairwise (fun p q => p.layout.size < q.layout.size) a.pages ∧
    ∃ lastPg, a.pages.getLast? = some lastPg ∧
      ∀ p ∈ a.pages, p.layout.size ≤ lastPg.layout.size := by
  have hi := reach_inv _ _ hre
  refine ⟨hi.sizes_lt, ?_⟩
  obtain ⟨lastPg, hlast, hsize⟩ := hi.ps_last
  exact ⟨lastPg, hlast, pairwise_size_le_getLast _ _ hi.sizes_lt hlast⟩

/-- Witness for C10 at the reachable state `A0`. -/
theorem pages_sizes_strictly_increasing_witness :
    List.Pairwise (fun p q => p.layout.size < q.layout.size) A0.pages ∧
    ∃ lastPg, A0.pages.getLast? = some lastPg ∧
      ∀ p ∈ A0.pages, p.layout.size ≤ lastPg.layout.size :=
  pages_sizes_strictly_increasing A0 M0 reach_A0

/-- C3: when the allocation does not fit the active page, the arena
grows by exactly one page whose size is the doubled page-size hint
clamped up to the layout's size; the page is appended, becomes active,
the layout is reserved at its very start (which succeeds), and the
cursor moves to the reserved end; the new size is ≥ 2× the previous
hint and ≥ the requested size, so no allocation fails for being larger
than the doubled default. -/
theorem growth_event_spec (a : WeakArena) (m : Mem) (l : Layout)
    (hv : l.valid) (hps : 0 < a.page_size)
    (hfail : a.alloc_in_current_page l = none) :
    ∃ page a' m',
      a.alloc_layout l m = .ok (page.start, a', m') ∧
      page.layout.size = max (a.page_size * 2) l.size ∧
      a'.pages = a.pages ++ [page] ∧
      a'.pages.length = a.pages.length + 1 ∧
      a'.page_size = page.layout.size ∧
      a'.cursor.page = a.pages.length ∧
      a'.cursor.offset = page.start + l.size ∧
      a.page_size * 2 ≤ page.layout.size ∧ l.size ≤ page.layout.size := by
  have hmaxl := Nat.le_max_left (a.page_size * 2) l.size
  have hmaxr := Nat.le_max_right (a.page_size * 2) l.size
  have hpos2 : 0 < max (a.page_size * 2) l.size := by omega
  have hnew := allocationPage_new_pos (max (a.page_size * 2) l.size)
    m.alloc_state hpos2
  have hofs : alignOffset (roundUp m.alloc_state.next mallocAlign) l.align = 0 :=
    alignOffset_eq_zero _ _ hv.2 (roundUp_mallocAlign_mod _)
  have htry :
      AllocationPage.try_alloc_layout
        { layout := { size := max (a.page_size * 2) l.size, align := 1 }
          start := roundUp m.alloc_state.next mallocAlign
          endAddr := roundUp m.alloc_state.next mallocAlign +
            max (a.page_size * 2) l.size }
        (roundUp m.alloc_state.next mallocAlign) l =
      some (roundUp m.alloc_state.next mallocAlign,
            roundUp m.alloc_state.next mallocAlign + l.size) := by
    simp only [AllocationPage.try_alloc_layout, hofs, Nat.add_zero]
    rw [if_pos (by omega)]
  refine ⟨{ layout := { size := max (a.page_size * 2) l.size, align := 1 }
            start := roundUp m.alloc_state.next mallocAlign
            endAddr := roundUp m.alloc_state.next mallocAlign +
              max (a.page_size * 2) l.size },
          { a with
              page_size := max (a.page_size * 2) l.size
              pages := a.pages ++
                [{ layout := { size := max (a.page_size * 2) l.size, align := 1 }
                   start := roundUp m.alloc_state.next mallocAlign
                   endAddr := roundUp m.alloc_state.next mallocAlign +
                     max (a.page_size * 2) l.size }]
              cursor := { page := a.pages.length
                          offset := roundUp m.alloc_state.next mallocAlign + l.size } },
          { m with alloc_state :=
              { next := roundUp m.alloc_state.next mallocAlign +
                  max (a.page_size * 2) l.size
                calls := m.alloc_state.calls ++ [max (a.page_size * 2) l.size] } },
          ?_, rfl, rfl, by simp, rfl, rfl, rfl, hmaxl, hmaxr⟩
  simp only [WeakArena.alloc_layout, hfail, WeakArena.alloc_in_new_page, hnew, htry]

/-- Witness for C3: the full page-4 arena `A3` and an (8, 4) layout. -/
theorem growth_event_spec_witness :
    (Layout.valid { size := 8, align := 4 } ∧ 0 < A3.page_size ∧
      A3.alloc_in_current_page { size := 8, align := 4 } = none) ∧
    (∃ page a' m',
      A3.alloc_layout { size := 8, align := 4 } M3 = .ok (page.start, a', m') ∧
      page.layout.size = max (A3.page_size * 2) 8 ∧
      a'.pages = A3.pages ++ [page] ∧
      a'.pages.length = A3.pages.length + 1 ∧
      a'.page_size = page.layout.size ∧
      a'.cursor.page = A3.pages.length ∧
      a'.cursor.offset = page.start + 8 ∧
      A3.page_size * 2 ≤ page.layout.size ∧ 8 ≤ page.layout.size) :=
  ⟨⟨by decide, by decide, by rfl⟩,
   growth_event_spec A3 M3 { size := 8, align := 4 } (by decide) (by decide) (by rfl)⟩

theorem alloc_shape (a : WeakArena) (t : TypeInfo) (m : Mem) (b : WeakBox)
    (a' : WeakArena) (m' : Mem) (h : a.alloc t m = .ok (b, a', m')) :
    ∃ dp a1 m1, a.alloc_layout t.layout m = .ok (dp, a1, m1) ∧
      a'.pages = a1.pages ∧ a'.cursor = a1.cursor ∧
      a'.page_size = a1.page_size ∧ a'.alive = a1.alive ∧
      m'.flags = m1.flags := by
  obtain ⟨dp, a1, m1, hl, ha, hb, hm⟩ := weakArena_alloc_ok _ _ _ _ _ _ h
  subst ha
  subst hm
  cases hd : t.needs_drop with
  | false =>
    simp only [hd, if_false, Bool.false_eq_true]
    exact ⟨dp, a1, m1, hl, rfl, rfl, rfl, rfl, rfl⟩
  | true =>
    simp only [hd, if_true]
    exact ⟨dp, a1, m1, hl, rfl, rfl, rfl, rfl, rfl⟩

theorem reach_A3 : Reach A3 M3 :=
  Reach.allocStep A0 M0 i32Info { ptr := 16, alive := 0 } A3 M3 reach_A0 rfl

/-- C4 counterexample: after `clear()` on the fresh page-4 arena, an
8-byte allocation succeeds but is NOT placed at the start (16) of the
retained page — it lands at address 32 inside a freshly created second
page, so the post-clear allocation is not always placed at the start of
the retained page as the claim states. -/
theorem clear_then_alloc_counterexample :
    A0.clear M0 = .ok (A1, M1) ∧
    A1.alloc_layout { size := 8, align := 1 } M1 = .ok (32, A2, M2) ∧
    A1.pages = [{ layout := { size := 4, align := 1 }, start := 16, endAddr := 20 }] ∧
    A2.pages.length = 2 ∧ (32 : Nat) ≠ 16 :=
  ⟨by rfl, by rfl, rfl, rfl, by decide⟩

/-- C4 (amended): after `clear()` exactly one page remains — the most
recently created one — the cursor is reset to its start, and the next
allocation is placed starting at the start of that retained page
provided its (valid) layout fits the retained page's capacity; an
allocation larger than the retained page instead succeeds in a fresh
page (see the counterexample). -/
theorem clear_retains_last_page (a : WeakArena) (m : Mem) (hre : Reach a m)
    (a1 : WeakArena) (m1 : Mem) (hclear : a.clear m = .ok (a1, m1)) :
    ∃ p, a.pages.getLast? = some p ∧
      a1.pages = [p] ∧ a1.cursor.page = 0 ∧ a1.cursor.offset = p.start ∧
      ∀ l : Layout, l.valid → l.size ≤ p.layout.size →
        ∃ a2 m2, a1.alloc_layout l m1 = .ok (p.start, a2, m2) ∧
          a2.pages = [p] := by
  have hi := reach_inv _ _ hre
  obtain ⟨lastPg, hlast, hsize⟩ := hi.ps_last
  obtain ⟨p0, hh, ha, hm⟩ := clear_ok _ _ _ _ hclear
  have hdrop := listDrop_pred_getLast _ _ hlast
  rw [hdrop] at hh ha
  injection hh with hp0
  subst hp0
  have hwf := hi.pages_wf lastPg (listGetLast_mem _ _ hlast)
  have hpages : a1.pages = [lastPg] := by rw [ha]
  have hcpage : a1.cursor.page = 0 := by rw [ha]
  have hcoff : a1.cursor.offset = lastPg.start := by rw [ha]
  refine ⟨lastPg, hlast, hpages, hcpage, hcoff, ?_⟩
  intro l hv hfit
  have hofs : alignOffset lastPg.start l.align = 0 :=
    alignOffset_eq_zero _ _ hv.2 hwf.2.1
  have htry : lastPg.try_alloc_layout lastPg.start l =
      some (lastPg.start, lastPg.start + l.size) := by
    simp only [AllocationPage.try_alloc_layout, hofs, Nat.add_zero]
    rw [if_pos (by rw [hwf.1]; omega)]
  refine ⟨{ a1 with cursor := { page := a1.cursor.page
                                offset := lastPg.start + l.size } }, m1, ?_,
          by simp only []; exact hpages⟩
  simp only [WeakArena.alloc_layout, WeakArena.alloc_in_current_page, hpages,
    hcpage, hcoff, List.get?_cons_zero, htry]

/-- Witness for C4 at the reachable state `A3` (page full) cleared into
`A4`. -/
theorem clear_retains_last_page_witness :
    (Reach A3 M3 ∧ A3.clear M3 = .ok (A4, M4)) ∧
    (∃ p, A3.pages.getLast? = some p ∧
      A4.pages = [p] ∧ A4.cursor.page = 0 ∧ A4.cursor.offset = p.start ∧
      ∀ l : Layout, l.valid → l.size ≤ p.layout.size →
        ∃ a2 m2, A4.alloc_layout l M4 = .ok (p.start, a2, m2) ∧
          a2.pages = [p]) :=
  ⟨⟨reach_A3, by rfl⟩, clear_retains_last_page A3 M3 reach_A3 A4 M4 (by rfl)⟩

/-- C6 counterexample: `clear()` on the full arena `A3` moves the cursor
backwards (from byte 20 back to byte 16) within the same retained page:
the cursor neither moved forward nor jumped to the start of a newly
appended page, refuting the movement clause of the claim for the listed
`clear` operation. -/
theorem cursor_move_counterexample :
    runOp A3 M3 .clearOp = .ok (A4, M4) ∧ ¬ claimMove A3 A4 := by
  refine ⟨by rfl, ?_⟩
  rintro (⟨hpage, hoff⟩ | ⟨p, hp, hoff⟩)
  · simp [A3, A4] at hoff
  · have h2 := congrArg List.length hp
    simp [A3, A4] at h2

/-- C6 (amended): in every reachable state the cursor lies within
[active page's start, active page's end]; across every successful
operation it moves forward within the same page, or into a newly
appended page (landing at the end of the reservation placed at that
page's start), or — on `clear` — resets backwards to the start of the
retained page. -/
theorem cursor_bounds_and_moves (a : WeakArena) (m : Mem) (hre : Reach a m) :
    (∃ pg, a.pages.get? a.cursor.page = some pg ∧
      pg.start ≤ a.cursor.offset ∧ a.cursor.offset ≤ pg.endAddr) ∧
    ∀ op a' m', runOp a m op = .ok (a', m') → amendedMove a a' := by
  have hi := reach_inv _ _ hre
  refine ⟨hi.cur_in, ?_⟩
  intro op a' m' h
  cases op with
  | allocOp t =>
    simp only [runOp] at h
    split at h
    · exact Except.noConfusion h
    · rename_i b a2 m2 halloc
      injection h with h2
      injection h2 with h3 h4
      subst h3
      subst h4
      obtain ⟨dp, a1, m1, hl, hpg, hcur, hps, hal, hfl⟩ :=
        alloc_shape _ _ _ _ _ _ halloc
      rcases alloc_layout_cases _ _ _ _ _ _ hl with ⟨hc, hm1⟩ | ⟨hc, hn⟩
      · obtain ⟨pg, de, hg, ht, ha1⟩ := alloc_in_current_page_some _ _ _ _ hc
        obtain ⟨hs, he, hle⟩ := try_alloc_layout_some _ _ _ _ _ ht
        subst ha1
        left
        have hcp := congrArg Cursor.page hcur
        have hco : a2.cursor.offset = de := congrArg Cursor.offset hcur
        refine ⟨hpg, hcp, ?_⟩
        rw [hco]
        omega
      · obtain ⟨page, st, de, hnew, ht, ha1, hm1⟩ :=
          alloc_in_new_page_ok _ _ _ _ _ _ hn
        obtain ⟨hs, he, hle⟩ := try_alloc_layout_some _ _ _ _ _ ht
        subst ha1
        right
        left
        have hcp : a2.cursor.page = a.pages.length := congrArg Cursor.page hcur
        have hco : a2.cursor.offset = de := congrArg Cursor.offset hcur
        refine ⟨page, hpg, hcp, ?_, ?_⟩
        · rw [hco]
          omega
        · rw [hco]
          exact hle
  | clearOp =>
    simp only [runOp] at h
    have hi2 := hi
    obtain ⟨lastPg, hlast, hsize⟩ := hi2.ps_last
    obtain ⟨p0, hh, ha, hm⟩ := clear_ok _ _ _ _ h
    have hdrop := listDrop_pred_getLast _ _ hlast
    rw [hdrop] at hh ha
    injection hh with hp0
    subst hp0
    right
    right
    refine ⟨lastPg, hlast, by rw [ha], by rw [ha], by rw [ha]⟩

/-- Witness for C6 at the reachable state `A0`. -/
theorem cursor_bounds_and_moves_witness :
    (∃ pg, A0.pages.get? A0.cursor.page = some pg ∧
      pg.start ≤ A0.cursor.offset ∧ A0.cursor.offset ≤ pg.endAddr) ∧
    ∀ op a' m', runOp A0 M0 op = .ok (a', m') → amendedMove A0 a' :=
  cursor_bounds_and_moves A0 M0 reach_A0

/-- C7 counterexample: arena of page size 5; allocating 1 byte (align 1)
then 4 bytes (align 4) has cumulative size 1 + 4 = 5 ≤ 5, yet the
alignment padding before the second allocation pushes its end past the
page end, so a second page is created and the page count becomes 2. -/
theorem cumulative_size_counterexample :
    WeakArena.new 5 Mem.init = .ok (A5, M5) ∧
    runOps A5 M5
      [.allocOp { layout := { size := 1, align := 1 }, needs_drop := false },
       .allocOp { layout := { size := 4, align := 4 }, needs_drop := false }] =
      .ok (A6, M6) ∧
    1 + 4 ≤ 5 ∧ A6.pages.length = 2 :=
  ⟨by rfl, by rfl, by decide, rfl⟩

theorem foldl_bumpEnd_ge (ls : List Layout) (x : Nat) :
    x ≤ List.foldl bumpEnd x ls := by
  induction ls generalizing x with
  | nil => exact Nat.le_refl x
  | cons l ls ih =>
    have h1 : x ≤ bumpEnd x l := by
      unfold bumpEnd
      omega
    exact le_trans h1 (ih (bumpEnd x l))

theorem alloc_layout_fit (a : WeakArena) (m : Mem) (l : Layout)
    (pg : AllocationPage) (hpg : a.pages.get? a.cursor.page = some pg)
    (hfit : bumpEnd a.cursor.offset l ≤ pg.endAddr) :
    a.alloc_layout l m =
      .ok (a.cursor.offset + alignOffset a.cursor.offset l.align,
           { a with cursor := { page := a.cursor.page
                                offset := bumpEnd a.cursor.offset l } }, m) := by
  have htry := try_alloc_layout_fits pg a.cursor.offset l hfit
  simp only [WeakArena.alloc_layout, WeakArena.alloc_in_current_page, hpg,
    htry, bumpEnd]

theorem within_footprint_single_page (ts : List TypeInfo) (a : WeakArena)
    (m : Mem) (pg : AllocationPage)
    (hpages : a.pages = [pg]) (hcpage : a.cursor.page = 0)
    (hfit : List.foldl bumpEnd a.cursor.offset (ts.map TypeInfo.layout) ≤
      pg.endAddr) :
    ∃ a' m', runOps a m (allocOps ts) = .ok (a', m') ∧
      a'.pages = [pg] ∧
      a'.cursor.offset =
        List.foldl bumpEnd a.cursor.offset (ts.map TypeInfo.layout) := by
  induction ts generalizing a m with
  | nil => exact ⟨a, m, rfl, hpages, rfl⟩
  | cons t ts ih =>
    simp only [List.map_cons, List.foldl_cons] at hfit
    have hstep : bumpEnd a.cursor.offset t.layout ≤ pg.endAddr := by
      have hmono := foldl_bumpEnd_ge (ts.map TypeInfo.layout)
        (bumpEnd a.cursor.offset t.layout)
      omega
    have hpg : a.pages.get? a.cursor.page = some pg := by
      rw [hpages, hcpage]
      rfl
    have hmain := alloc_layout_fit a m t.layout pg hpg hstep
    cases hd : t.needs_drop with
    | false =>
      have hrun : runOp a m (.allocOp t) =
          .ok ({ a with cursor := { page := a.cursor.page
                                    offset := bumpEnd a.cursor.offset t.layout } },
               { m with next_serial := m.next_serial + 1 }) := by
        simp only [runOp, WeakArena.alloc, hmain, hd, if_false, Bool.false_eq_true]
      have hfit1 : List.foldl bumpEnd
          (bumpEnd a.cursor.offset t.layout) (ts.map TypeInfo.layout) ≤
          pg.endAddr := hfit
      obtain ⟨a', m', hih, hp, ho⟩ := ih
        { a with cursor := { page := a.cursor.page
                             offset := bumpEnd a.cursor.offset t.layout } }
        { m with next_serial := m.next_serial + 1 } hpages hcpage hfit1
      refine ⟨a', m', ?_, hp, ?_⟩
      · simp only [allocOps, List.map_cons, runOps, hrun]
        exact hih
      · rw [ho, List.map_cons, List.foldl_cons]
    | true =>
      have hrun : runOp a m (.allocOp t) =
          .ok ({ a with
                   cursor := { page := a.cursor.page
                               offset := bumpEnd a.cursor.offset t.layout }
                   drop_handlers := a.drop_handlers ++
                     [{ value := a.cursor.offset +
                          alignOffset a.cursor.offset t.layout.align
                        serial := m.next_serial }] },
               { m with next_serial := m.next_serial + 1 }) := by
        simp only [runOp, WeakArena.alloc, hmain, hd, if_true]
      have hfit1 : List.foldl bumpEnd
          (bumpEnd a.cursor.offset t.layout) (ts.map TypeInfo.layout) ≤
          pg.endAddr := hfit
      obtain ⟨a', m', hih, hp, ho⟩ := ih
        { a with
            cursor := { page := a.cursor.page
                        offset := bumpEnd a.cursor.offset t.layout }
            drop_handlers := a.drop_handlers ++
              [{ value := a.cursor.offset +
                   alignOffset a.cursor.offset t.layout.align
                 serial := m.next_serial }] }
        { m with next_serial := m.next_serial + 1 } hpages hcpage hfit1
      refine ⟨a', m', ?_, hp, ?_⟩
      · simp only [allocOps, List.map_cons, runOps, hrun]
        exact hih
      · rw [ho, List.map_cons, List.foldl_cons]

/-- C7 (amended): for an arena created with page size P, every sequence
of allocations whose cumulative footprint — each allocation's size plus
the alignment padding inserted in front of it — stays within the P
bytes of the initial page keeps the page count at exactly 1 (and the
page is the original one); plain cumulative size is not enough, see the
counterexample. -/
theorem within_page_keeps_one_page (P : Nat) (ts : List TypeInfo)
    (a : WeakArena) (m : Mem)
    (hnew : WeakArena.new P Mem.init = .ok (a, m))
    (hfit : List.foldl bumpEnd a.cursor.offset (ts.map TypeInfo.layout) ≤
      a.cursor.offset + P) :
    ∃ a' m', runOps a m (allocOps ts) = .ok (a', m') ∧
      a'.pages.length = 1 ∧ a'.pages = a.pages := by
  simp only [WeakArena.new] at hnew
  split at hnew
  · exact Except.noConfusion hnew
  · rename_i page st hn
    obtain ⟨hpos, hlay, hstart, hend, hst⟩ := allocationPage_new_ok _ _ _ _ hn
    injection hnew with h2
    injection h2 with h3 h4
    subst h3
    subst h4
    have hend2 : page.endAddr = page.start + P := hend
    obtain ⟨a', m', hih, hp, ho⟩ := within_footprint_single_page ts _ _ page
      rfl rfl (by rw [hend2]; exact hfit)
    exact ⟨a', m', hih, by rw [hp]; rfl, by rw [hp]⟩

/-- Witness for C7: page size 5, allocations (1, align 1) and
(2, align 2): footprint 16 → 17 → 20 ≤ 21. -/
theorem within_page_keeps_one_page_witness :
    (WeakArena.new 5 Mem.init = .ok (A5, M5) ∧
      List.foldl bumpEnd A5.cursor.offset
        ([{ layout := { size := 1, align := 1 }, needs_drop := false },
           { layout := { size := 2, align := 2 }, needs_drop := false }].map
          TypeInfo.layout) ≤ A5.cursor.offset + 5) ∧
    (∃ a' m', runOps A5 M5 (allocOps
        [{ layout := { size := 1, align := 1 }, needs_drop := false },
         { layout := { size := 2, align := 2 }, needs_drop := false }]) =
      .ok (a', m') ∧ a'.pages.length = 1 ∧ a'.pages = A5.pages) :=
  ⟨⟨by rfl, by decide⟩,
   within_page_keeps_one_page 5
     [{ layout := { size := 1, align := 1 }, needs_drop := false },
      { layout := { size := 2, align := 2 }, needs_drop := false }]
     A5 M5 (by rfl) (by decide)⟩

/-- C8 counterexample: in the page-size-4 / 4-byte-aligned-4-byte-value
scenario the page count after 1 + 2 + 4 + 8 = 15 allocations is 4, not
5 — the fifth page only appears at the 16th allocation (matching the
source's own `page_grows_exp` test, which allocates 16 times). -/
theorem page_growth_counterexample :
    pageCountAfter 15 = some 4 ∧ pageCountAfter 15 ≠ some 5 := by
  constructor
  · rfl
  · intro h
    rw [show pageCountAfter 15 = some 4 from rfl] at h
    injection h with h2
    exact absurd h2 (by decide)

/-- C8 (amended): the page count stands at 1, 2, 3, 4, 5 at the
cumulative allocation counts 1, 2, 4, 8, 16 respectively (holding
steady in between: 1 for n ≤ 1, 2 for 2 ≤ n ≤ 3, 3 for 4 ≤ n ≤ 7,
4 for 8 ≤ n ≤ 15), reaching 5 after 16 = 1 + 2 + 4 + 8 + 1 total
allocations — not after 15 as the claim says. -/
theorem page_growth_thresholds :
    pageCountAfter 0 = some 1 ∧ pageCountAfter 1 = some 1 ∧
    pageCountAfter 2 = some 2 ∧ pageCountAfter 3 = some 2 ∧
    pageCountAfter 4 = some 3 ∧ pageCountAfter 5 = some 3 ∧
    pageCountAfter 6 = some 3 ∧ pageCountAfter 7 = some 3 ∧
    pageCountAfter 8 = some 4 ∧ pageCountAfter 9 = some 4 ∧
    pageCountAfter 10 = some 4 ∧ pageCountAfter 11 = some 4 ∧
    pageCountAfter 12 = some 4 ∧ pageCountAfter 13 = some 4 ∧
    pageCountAfter 14 = some 4 ∧ pageCountAfter 15 = some 4 ∧
    pageCountAfter 16 = some 5 :=
  ⟨rfl, rfl, rfl, rfl, rfl, rfl, rfl, rfl, rfl, rfl, rfl, rfl, rfl, rfl,
   rfl, rfl, rfl⟩

/-! Destructor-registry lemmas for C2. -/

theorem alloc_layout_preserves (a : WeakArena) (m : Mem) (l : Layout)
    (dp : Nat) (a' : WeakArena) (m' : Mem)
    (h : a.alloc_layout l m = .ok (dp, a', m')) :
    a'.drop_handlers = a.drop_handlers ∧ a'.alive = a.alive ∧
    m'.next_serial = m.next_serial ∧ m'.drop_trace = m.drop_trace ∧
    m'.flags = m.flags := by
  rcases alloc_layout_cases _ _ _ _ _ _ h with ⟨hc, hm1⟩ | ⟨hc, hn⟩
  · obtain ⟨pg, de, hg, ht, ha1⟩ := alloc_in_current_page_some _ _ _ _ hc
    subst ha1
    subst hm1
    exact ⟨rfl, rfl, rfl, rfl, rfl⟩
  · obtain ⟨page, st, de, hnew, ht, ha1, hm1⟩ := alloc_in_new_page_ok _ _ _ _ _ _ hn
    subst ha1
    subst hm1
    exact ⟨rfl, rfl, rfl, rfl, rfl⟩

theorem alloc_handlers_shape (a : WeakArena) (t : TypeInfo) (m : Mem)
    (b : WeakBox) (a' : WeakArena) (m' : Mem)
    (h : a.alloc t m = .ok (b, a', m')) :
    ∃ dp, a'.drop_handlers = a.drop_handlers ++
        (if t.needs_drop then [{ value := dp, serial := m.next_serial }] else []) ∧
      m'.next_serial = m.next_serial + 1 ∧ m'.drop_trace = m.drop_trace := by
  obtain ⟨dp, a1, m1, hl, ha, hb, hm⟩ := weakArena_alloc_ok _ _ _ _ _ _ h
  obtain ⟨hdh, hal, hns, hdt, hfl⟩ := alloc_layout_preserves _ _ _ _ _ _ hl
  subst ha
  subst hm
  refine ⟨dp, ?_, by simp [hns], by simp [hdt]⟩
  cases hd : t.needs_drop with
  | false =>
    simp only [hd, if_false, Bool.false_eq_true, List.append_nil]
    exact hdh
  | true =>
    simp only [hd, if_true]
    rw [hdh, hns]

theorem run_allocs_handlers (ts : List TypeInfo) (a : WeakArena) (m : Mem)
    (a' : WeakArena) (m' : Mem)
    (h : runOps a m (allocOps ts) = .ok (a', m')) :
    a'.drop_handlers.map DropHandler.serial =
      a.drop_handlers.map DropHandler.serial ++
        expectedSerials m.next_serial ts ∧
    m'.next_serial = m.next_serial + ts.length ∧
    m'.drop_trace = m.drop_trace := by
  induction ts generalizing a m with
  | nil =>
    simp only [allocOps, List.map_nil, runOps] at h
    injection h with h2
    injection h2 with h3 h4
    subst h3
    subst h4
    simp [expectedSerials]
  | cons t ts ih =>
    simp only [allocOps, List.map_cons, runOps] at h
    split at h
    · exact Except.noConfusion h
    · rename_i a1 m1 hstep
      simp only [runOp] at hstep
      split at hstep
      · exact Except.noConfusion hstep
      · rename_i b a2 m2 halloc
        injection hstep with h2
        injection h2 with h3 h4
        subst h3
        subst h4
        obtain ⟨dp, hdh, hns, hdt⟩ := alloc_handlers_shape _ _ _ _ _ _ halloc
        obtain ⟨hh, hn2, ht2⟩ := ih _ _ h
        refine ⟨?_, ?_, ?_⟩
        · rw [hh, hdh, hns]
          cases hd : t.needs_drop with
          | false =>
            simp [expectedSerials, hd]
          | true =>
            simp [expectedSerials, hd, List.map_append]
        · rw [hn2, hns]
          simp only [List.length_cons]
          omega
        · rw [ht2, hdt]

theorem expectedSerials_ge (ts : List TypeInfo) (s0 : Nat) :
    ∀ x ∈ expectedSerials s0 ts, s0 ≤ x := by
  induction ts generalizing s0 with
  | nil =>
    intro x hx
    simp [expectedSerials] at hx
  | cons t ts ih =>
    intro x hx
    simp only [expectedSerials] at hx
    split at hx
    · rcases List.mem_cons.mp hx with rfl | hx2
      · exact Nat.le_refl x
      · have := ih (s0 + 1) x hx2
        omega
    · have := ih (s0 + 1) x hx
      omega

theorem expectedSerials_pairwise (ts : List TypeInfo) (s0 : Nat) :
    List.Pairwise (fun x y => x < y) (expectedSerials s0 ts) := by
  induction ts generalizing s0 with
  | nil => simp [expectedSerials]
  | cons t ts ih =>
    simp only [expectedSerials]
    split
    · refine List.pairwise_cons.mpr ⟨?_, ih (s0 + 1)⟩
      intro y hy
      have := expectedSerials_ge ts (s0 + 1) y hy
      omega
    · exact ih (s0 + 1)

/-- C2: for every sequence of allocations since the last clear (the
destructor registry starts empty), `clear()` — and arena teardown
(`Drop for WeakArena`), which performs exactly a clear — appends the
registered destructor entries to the executed-destructor trace in
registration order and empties the registry; the registered entries are
exactly the allocations whose type needs dropping, in allocation order
(their ghost serials are the allocation serials, strictly increasing —
first-allocated first — hence each destructor runs exactly once). -/
theorem destructors_run_once_in_order (ts : List TypeInfo) (a : WeakArena)
    (m : Mem) (a1 : WeakArena) (m1 : Mem) (a2 : WeakArena) (m2 : Mem)
    (h0 : a.drop_handlers = [])
    (hrun : runOps a m (allocOps ts) = .ok (a1, m1))
    (hclear : a1.clear m1 = .ok (a2, m2)) :
    m2.drop_trace = m1.drop_trace ++ a1.drop_handlers ∧
    a1.drop_handlers.map DropHandler.serial = expectedSerials m.next_serial ts ∧
    List.Pairwise (fun x y => x < y)
      (a1.drop_handlers.map DropHandler.serial) ∧
    (a1.drop_handlers.map DropHandler.serial).Nodup ∧
    a2.drop_handlers = [] ∧
    a1.dropArena m1 = .ok (a2, m2) := by
  obtain ⟨hh, hns, hdt⟩ := run_allocs_handlers ts _ _ _ _ hrun
  rw [h0] at hh
  simp only [List.map_nil, List.nil_append] at hh
  obtain ⟨p0, hhd, ha, hm⟩ := clear_ok _ _ _ _ hclear
  have hp : List.Pairwise (fun x y => x < y)
      (a1.drop_handlers.map DropHandler.serial) := by
    rw [hh]
    exact expectedSerials_pairwise ts m.next_serial
  subst ha
  subst hm
  exact ⟨rfl, hh, hp, hp.imp (fun hxy => Nat.ne_of_lt hxy), rfl, hclear⟩

/-- Witness for C2: one needs-drop allocation in the fresh arena, then
`clear()`: the single handler (serial 0) runs. -/
theorem destructors_run_once_in_order_witness :
    (A0.drop_handlers = [] ∧
      runOps A0 M0 (allocOps
        [{ layout := { size := 4, align := 4 }, needs_drop := true }]) =
        .ok (A7, M7) ∧
      A7.clear M7 = .ok (A8, M8)) ∧
    (M8.drop_trace = M7.drop_trace ++ A7.drop_handlers ∧
      A7.drop_handlers.map DropHandler.serial =
        expectedSerials M0.next_serial
          [{ layout := { size := 4, align := 4 }, needs_drop := true }] ∧
      List.Pairwise (fun x y => x < y)
        (A7.drop_handlers.map DropHandler.serial) ∧
      (A7.drop_handlers.map DropHandler.serial).Nodup ∧
      A8.drop_handlers = [] ∧
      A7.dropArena M7 = .ok (A8, M8)) :=
  ⟨⟨rfl, by rfl, by rfl⟩,
   destructors_run_once_in_order
     [{ layout := { size := 4, align := 4 }, needs_drop := true }]
     A0 M0 A7 M7 A8 M8 rfl (by rfl) (by rfl)⟩
